import Mathlib

/-!
Verification of core components of the tensorflow-deploy-rust repository:
graph construction (`RawModel::new`), the Pack operator (eval and inference
rules), Conv shape inference, the `LocalPatch` padding/pooling kernels and
the ONNX operator registry, embedded shallowly as Lean functions.
-/

set_option maxHeartbeats 1000000

namespace TfDeploy

/-! ### Graph model (src/src/model/mod.rs) -/

/-- An outlet id: producer-side endpoint of an edge, `(node index, output slot)`. -/
structure OutletId where
  node : Nat
  slot : Nat
deriving DecidableEq, Repr

/-- A graph node as in `src/src/model/mod.rs`: stable id, unique name, operator
kind tag, and the list of input outlets.  The owned `op` instance is irrelevant
to the graph-construction claims and is omitted from the shallow embedding. -/
structure Node where
  id : Nat
  name : String
  op_name : String
  inputs : List OutletId
deriving DecidableEq, Repr

/-- `RawModel::new` (src/src/model/mod.rs lines 63-83): computes the set of
slot-0 outlets of non-Sink nodes, the set of outlets consumed by some node's
input list, and appends one Sink node (with the outlet as its sole input) for
every outlet of the difference.  The Rust `HashSet` collection is modelled by
`List.dedup`; the push loop assigning `id = nodes.len()` is modelled by
appending the enumerated missing outlets. -/
def rawModelNew (nodes : List Node) : List Node :=
  let outlets : List OutletId :=
    ((nodes.filter (fun n => n.op_name ≠ "Sink")).map (fun n => OutletId.mk n.id 0)).dedup
  let used : List OutletId := nodes.flatMap (fun n => n.inputs)
  let missing : List OutletId := outlets.filter (fun o => o ∉ used)
  nodes ++ missing.enum.map (fun p =>
    Node.mk (nodes.length + p.1)
      ("Sink-" ++ toString (nodes.length + p.1)) "Sink" [p.2])

/-- The nodes appended by `rawModelNew` beyond the input list. -/
def appendedSinks (nodes : List Node) : List Node :=
  (rawModelNew nodes).drop nodes.length

theorem appendedSinks_eq (nodes : List Node) :
    appendedSinks nodes =
      ((((nodes.filter (fun n => n.op_name ≠ "Sink")).map
          (fun n => OutletId.mk n.id 0)).dedup.filter
            (fun o => o ∉ nodes.flatMap (fun n => n.inputs))).enum.map (fun p =>
        Node.mk (nodes.length + p.1)
          ("Sink-" ++ toString (nodes.length + p.1)) "Sink" [p.2])) := by
  unfold appendedSinks rawModelNew
  simp [List.drop_left]

theorem countP_enum_snd {α : Type} (q : α → Bool) (l : List α) :
    l.enum.countP (fun p => q p.2) = l.countP q := by
  have h := List.countP_map q Prod.snd l.enum
  rw [List.enum_map_snd] at h
  exact h.symm

theorem countP_appendedSinks (nodes : List Node) (o : OutletId) :
    (appendedSinks nodes).countP (fun s => s.inputs = [o]) =
      ((((nodes.filter (fun n => n.op_name ≠ "Sink")).map
          (fun n => OutletId.mk n.id 0)).dedup.filter
            (fun x => x ∉ nodes.flatMap (fun n => n.inputs))).count o) := by
  rw [appendedSinks_eq, List.countP_map]
  have h1 : ((fun s => decide (s.inputs = [o])) ∘ fun p : Nat × OutletId =>
      Node.mk (nodes.length + p.1)
        ("Sink-" ++ toString (nodes.length + p.1)) "Sink" [p.2])
      = (fun p : Nat × OutletId => decide (p.2 = o)) := by
    funext p
    simp
  rw [h1, countP_enum_snd (fun x => decide (x = o))]
  rfl

/-- Claim C2: after `RawModel::new` returns, every appended node is a Sink; for
every slot-0 outlet of a non-Sink node that is not referenced by any node's
input list there is exactly one appended Sink node whose input list is exactly
that one outlet; and outlets consumed by some node's input get no new Sink. -/
theorem rawModelNew_sink_invariant (nodes : List Node) :
    (∀ s ∈ appendedSinks nodes, s.op_name = "Sink") ∧
    (∀ n ∈ nodes, n.op_name ≠ "Sink" →
      (∀ m ∈ nodes, OutletId.mk n.id 0 ∉ m.inputs) →
      (appendedSinks nodes).countP (fun s => s.inputs = [OutletId.mk n.id 0]) = 1) ∧
    (∀ o : OutletId, (∃ m ∈ nodes, o ∈ m.inputs) →
      (appendedSinks nodes).countP (fun s => s.inputs = [o]) = 0) := by
  refine ⟨?_, ?_, ?_⟩
  · intro s hs
    rw [appendedSinks_eq] at hs
    obtain ⟨p, _, rfl⟩ := List.mem_map.1 hs
    rfl
  · intro n hn hsink hunused
    rw [countP_appendedSinks]
    apply List.count_eq_one_of_mem
    · exact ((((nodes.filter (fun n => n.op_name ≠ "Sink")).map
        (fun n => OutletId.mk n.id 0)).nodup_dedup)).filter _
    · rw [List.mem_filter]
      constructor
      · rw [List.mem_dedup, List.mem_map]
        exact ⟨n, List.mem_filter.2 ⟨hn, by simpa using hsink⟩, rfl⟩
      · simp only [decide_eq_true_eq, List.mem_flatMap]
        rintro ⟨m, hm, hin⟩
        exact hunused m hm hin
  · intro o houtlet
    rw [countP_appendedSinks]
    rw [List.count_eq_zero]
    rw [List.mem_filter]
    rintro ⟨-, hdec⟩
    simp only [decide_eq_true_eq, List.mem_flatMap] at hdec
    exact hdec houtlet

/-- Witness for C2 at a concrete graph: a two-node chain `Source → Op`; the
Source's outlet is consumed, the Op's outlet is not, so exactly one Sink is
appended consuming the Op's outlet and none consuming the Source's. -/
theorem rawModelNew_sink_invariant_witness :
    let nodes := [Node.mk 0 "in" "Source" [], Node.mk 1 "op" "Foo" [OutletId.mk 0 0]]
    (appendedSinks nodes).countP (fun s => s.inputs = [OutletId.mk 1 0]) = 1 ∧
    (appendedSinks nodes).countP (fun s => s.inputs = [OutletId.mk 0 0]) = 0 := by
  intro nodes
  refine ⟨?_, ?_⟩
  · exact (rawModelNew_sink_invariant nodes).2.1 (Node.mk 1 "op" "Foo" [OutletId.mk 0 0])
      (by decide) (by decide) (by decide)
  · exact (rawModelNew_sink_invariant nodes).2.2 (OutletId.mk 0 0)
      ⟨Node.mk 1 "op" "Foo" [OutletId.mk 0 0], by decide, by decide⟩

/-! ### Pack operator inference rules (src/tfdeploy-tf/src/ops/array/pack.rs) -/

/-- A solver variable, named by the proxy expression that denotes it in an
operator's `rules` method. -/
inductive PVar
  | inputsLen
  | outputsLen
  | inputRank (i : Nat)
  | outputRank (o : Nat)
  | inputShape (i d : Nat)
  | outputShape (o d : Nat)
deriving DecidableEq, Repr

/-- A constraint declared on the solver: equality with a constant, equality of
two variables, `a = b + 1` (from `rank.bex() + 1`), or `equals_all`. -/
inductive RuleConstraint
  | eqConst (v : PVar) (c : Nat)
  | eqVar (a b : PVar)
  | eqSucc (a b : PVar)
  | eqAll (vs : List PVar)
deriving DecidableEq, Repr

/-- `Pack::rules` (src/tfdeploy-tf/src/ops/array/pack.rs lines 52-90): the
constraints declared for a Pack node with `n` inputs and axis `axis`, in the
assignment where `inputs[0].rank` has become known with value `r` (so both
`given(&inputs[0].rank, ...)` blocks have fired with `r`).  The dtype
`given_all` block concerns only datum types and is not part of claim C1.
The second given block runs `(axis..(r - 1))` on Rust `usize` ranges under the
guard `r > 0`. -/
def packRules (n axis r : Nat) : List RuleConstraint :=
  [RuleConstraint.eqConst PVar.inputsLen n,
   RuleConstraint.eqConst PVar.outputsLen 1,
   RuleConstraint.eqSucc (PVar.outputRank 0) (PVar.inputRank 0),
   RuleConstraint.eqAll ((List.range n).map PVar.inputRank)]
  ++ ((List.range r).map (fun d =>
        RuleConstraint.eqAll ((List.range n).map (fun i => PVar.inputShape i d))))
  ++ ((List.range axis).map (fun d =>
        RuleConstraint.eqVar (PVar.outputShape 0 d) (PVar.inputShape 0 d)))
  ++ (if 0 < r then
        (List.range' axis (r - 1 - axis)).map (fun d =>
          RuleConstraint.eqVar (PVar.outputShape 0 (d + 1)) (PVar.inputShape 0 d))
      else [])
  ++ [RuleConstraint.eqConst (PVar.outputShape 0 axis) n]

/-- Claim C1 counterexample: with n = 2 inputs, axis = 0 and known input rank
r = 1, the claim requires the constraint `out.shape[1] = in.shape[0]` (the case
d = 0 of `axis <= d < r`), but `Pack::rules` never declares it: its loop runs
over `axis..(r - 1)`, which is empty, so the final input axis is unconstrained. -/
theorem packRules_missing_last_axis :
    RuleConstraint.eqVar (PVar.outputShape 0 1) (PVar.inputShape 0 0) ∉
      packRules 2 0 1 := by
  decide

/-- Claim C1 (amended): for every assignment where input 0's rank r is known,
`Pack::rules` declares: all n inputs have equal rank, output rank = r + 1,
output shape at `axis` equals n, all input shapes unify at each axis d < r,
out.shape[d] = in.shape[d] for d < axis, and out.shape[d+1] = in.shape[d] for
axis <= d < r - 1 only: the copy constraint for the final input axis d = r - 1
is not declared. -/
theorem packRules_spec (n axis r : Nat) :
    RuleConstraint.eqConst PVar.inputsLen n ∈ packRules n axis r ∧
    RuleConstraint.eqConst PVar.outputsLen 1 ∈ packRules n axis r ∧
    RuleConstraint.eqSucc (PVar.outputRank 0) (PVar.inputRank 0) ∈ packRules n axis r ∧
    RuleConstraint.eqAll ((List.range n).map PVar.inputRank) ∈ packRules n axis r ∧
    (∀ d, d < r →
      RuleConstraint.eqAll ((List.range n).map (fun i => PVar.inputShape i d)) ∈
        packRules n axis r) ∧
    (∀ d, d < axis →
      RuleConstraint.eqVar (PVar.outputShape 0 d) (PVar.inputShape 0 d) ∈
        packRules n axis r) ∧
    (∀ d, axis ≤ d → d + 1 < r →
      RuleConstraint.eqVar (PVar.outputShape 0 (d + 1)) (PVar.inputShape 0 d) ∈
        packRules n axis r) ∧
    RuleConstraint.eqConst (PVar.outputShape 0 axis) n ∈ packRules n axis r := by
  refine ⟨?_, ?_, ?_, ?_, ?_, ?_, ?_, ?_⟩
  · simp [packRules]
  · simp [packRules]
  · simp [packRules]
  · simp [packRules]
  · intro d hd
    simp only [packRules, List.mem_append, List.mem_map, List.mem_range]
    exact Or.inl (Or.inl (Or.inl (Or.inr ⟨d, hd, rfl⟩)))
  · intro d hd
    simp only [packRules, List.mem_append, List.mem_map, List.mem_range]
    exact Or.inl (Or.inl (Or.inr ⟨d, hd, rfl⟩))
  · intro d hax hd
    simp only [packRules, List.mem_append]
    refine Or.inl (Or.inr ?_)
    rw [if_pos (by omega)]
    rw [List.mem_map]
    exact ⟨d, List.mem_range'_1.2 ⟨hax, by omega⟩, rfl⟩
  · simp [packRules]

/-- Witness for the amended C1 at n = 3, axis = 1, r = 3: the copy constraints
for d = 0 (below axis) and d = 1 (the case axis <= d < r - 1) are declared. -/
theorem packRules_spec_witness :
    RuleConstraint.eqVar (PVar.outputShape 0 2) (PVar.inputShape 0 1) ∈
      packRules 3 1 3 ∧
    RuleConstraint.eqVar (PVar.outputShape 0 0) (PVar.inputShape 0 0) ∈
      packRules 3 1 3 :=
  ⟨(packRules_spec 3 1 3).2.2.2.2.2.2.1 1 (by decide) (by decide),
   (packRules_spec 3 1 3).2.2.2.2.2.1 0 (by decide)⟩

/-! ### Datum types (the closed scalar enumeration of the spec) -/

/-- The closed scalar datum-type enumeration. -/
inductive DatumType
  | F32 | F64 | I32 | I64 | U8 | I8 | Bool | Str | TDim
deriving DecidableEq, Repr, Fintype

/-- Modelled from the spec: the lossless-coercion partial order on datum types
(the source of `DatumType::super_type_for` is not under src/).  A type coerces
losslessly into itself; small integers widen into larger integers, floats and
the symbolic integer `TDim`; `I64` widens into `TDim`; `F32` widens into `F64`
(consistent with the pack test where the supertype of I32 and TDim is TDim). -/
def losslessTo (a b : DatumType) : Bool :=
  if a = b then true
  else
    match a, b with
    | .U8, .I32 | .U8, .I64 | .U8, .F32 | .U8, .F64 | .U8, .TDim => true
    | .I8, .I32 | .I8, .I64 | .I8, .F32 | .I8, .F64 | .I8, .TDim => true
    | .I32, .I64 | .I32, .F64 | .I32, .TDim => true
    | .I64, .TDim => true
    | .F32, .F64 => true
    | _, _ => false

/-- All datum types, used to search for least upper bounds. -/
def allDatumTypes : List DatumType :=
  [.F32, .F64, .I32, .I64, .U8, .I8, .Bool, .Str, .TDim]

/-- Modelled from the spec: the supertype of two datum types is the smallest
type into which both coerce losslessly, undefined when there is none. -/
def superType (a b : DatumType) : Option DatumType :=
  let ub := allDatumTypes.filter (fun t => losslessTo a t && losslessTo b t)
  ub.find? (fun t => ub.all (fun u => losslessTo t u))

/-- Modelled from the spec: `DatumType::super_type_for`, folding the pairwise
supertype over the list; undefined on the empty list. -/
def superTypeFor : List DatumType → Option DatumType
  | [] => none
  | d :: rest => rest.foldl (fun acc x => acc.bind (fun s => superType s x)) (some d)

theorem losslessTo_trans :
    ∀ a b c : DatumType, losslessTo a b → losslessTo b c → losslessTo a c := by
  decide

theorem superType_lossless {a b t : DatumType} (h : superType a b = some t) :
    losslessTo a t ∧ losslessTo b t := by
  unfold superType at h
  have hm := List.find?_some h
  have hmem := List.mem_filter.1 (List.mem_of_find?_eq_some h)
  simp only [Bool.and_eq_true] at hmem
  exact hmem.2

theorem foldl_superType_none (xs : List DatumType) :
    xs.foldl (fun acc x => acc.bind (fun s => superType s x)) none = none := by
  induction xs with
  | nil => rfl
  | cons y ys ih => simpa using ih

theorem foldl_superType_lossless :
    ∀ (rest : List DatumType) (s t : DatumType),
      rest.foldl (fun acc x => acc.bind (fun s => superType s x)) (some s) = some t →
      losslessTo s t ∧ ∀ d ∈ rest, losslessTo d t := by
  intro rest
  induction rest with
  | nil =>
    intro s t h
    simp only [List.foldl_nil, Option.some.injEq] at h
    subst h
    exact ⟨by simp [losslessTo], by simp⟩
  | cons x xs ih =>
    intro s t h
    simp only [List.foldl_cons, Option.some_bind] at h
    match hsx : superType s x with
    | none =>
      rw [hsx] at h
      rw [foldl_superType_none] at h
      exact absurd h (by simp)
    | some u =>
      rw [hsx] at h
      obtain ⟨hsu, hxu⟩ := superType_lossless hsx
      obtain ⟨hut, hrest⟩ := ih u t h
      refine ⟨losslessTo_trans _ _ _ hsu hut, ?_⟩
      intro d hd
      rcases List.mem_cons.1 hd with rfl | hd
      · exact losslessTo_trans _ _ _ hxu hut
      · exact hrest d hd

theorem superTypeFor_lossless {l : List DatumType} {t : DatumType}
    (h : superTypeFor l = some t) : ∀ d ∈ l, losslessTo d t := by
  match l with
  | [] => simp [superTypeFor] at h
  | d :: rest =>
    unfold superTypeFor at h
    intro x hx
    rcases List.mem_cons.1 hx with rfl | hx
    · exact (foldl_superType_lossless rest x t h).1
    · exact (foldl_superType_lossless rest d t h).2 x hx

/-! ### Conv shape inference (src/src/ops/nn/conv/gen.rs) -/

/-- Modelled from the spec: the effective kernel dimension with dilation,
`effective_k = (k_i - 1) * dilation_i + 1` (src/src/ops/nn/patches.rs, which
implements `Patch`, is not under src/). -/
def effectiveKernelDim (k dil : Nat) : Nat :=
  (k - 1) * dil + 1

/-- Modelled from the spec: the per-spatial-axis output dimension for `Valid`
padding, `out_i = floor((in_i + pad_total - effective_k) / stride_i) + 1` with
`pad_total = 0` (src/src/ops/nn/patches.rs is not under src/). -/
def validOutDim (i k dil s : Nat) : Nat :=
  (i - effectiveKernelDim k dil) / s + 1

/-- `Conv::output_shape` (src/src/ops/nn/conv/gen.rs lines 53-61) for the
`Valid` padding case: spatial rank is input rank - 2; missing dilations and
strides default to 1; the kernel spatial dims start at index 0 for hwio and 2
for oihw; the output channel count `ko` is the last kernel dim for hwio and
kernel dim 0 for oihw; the output is `[batch, ko, spatial...]` for nchw data
and `[batch, spatial..., ko]` for nhwc data.  The geometry of `Patch` is
modelled from the spec (patches.rs is not under src/). -/
def convOutputShape (data_is_nhwc kernel_is_hwio : Bool)
    (dilations strides : Option (List Nat)) (ishape kshape : List Nat) : List Nat :=
  let spatialRank := ishape.length - 2
  let dils := dilations.getD (List.replicate spatialRank 1)
  let strs := strides.getD (List.replicate spatialRank 1)
  let kspatial := (kshape.drop (if kernel_is_hwio then 0 else 2)).take spatialRank
  let ispatial := if data_is_nhwc then (ishape.drop 1).take spatialRank else ishape.drop 2
  let spatialOut := (List.range spatialRank).map (fun i =>
    validOutDim (ispatial.getD i 0) (kspatial.getD i 0) (dils.getD i 1) (strs.getD i 1))
  let ko := if kernel_is_hwio then kshape.getD (kshape.length - 1) 0 else kshape.getD 0 0
  if data_is_nhwc then ishape.take 1 ++ spatialOut ++ [ko]
  else ishape.take 1 ++ [ko] ++ spatialOut

/-- `Conv::rules` (src/src/ops/nn/conv/gen.rs lines 90-151) specialised to the
two-input case with both input facts fully known: the `equals_all` over datum
types forces the three datum types equal; the `given_2` over ranks unifies the
input channel dim (`ishape[irank-1]` for nhwc, `ishape[1]` for nchw) with the
kernel in-channel dim (`kshape[krank-2]` for hwio, `kshape[1]` for oihw), and
the `given_2` over shapes sets the output shape to `output_shape`.  The result
is the inferred output fact, or `none` when unification fails. -/
def convInferOutput (data_is_nhwc kernel_is_hwio : Bool)
    (dilations strides : Option (List Nat))
    (idt : DatumType) (ishape : List Nat) (kdt : DatumType) (kshape : List Nat) :
    Option (DatumType × List Nat) :=
  let irank := ishape.length
  let krank := kshape.length
  let input_c := if data_is_nhwc then ishape.getD (irank - 1) 0 else ishape.getD 1 0
  let filter_i := if kernel_is_hwio then kshape.getD (krank - 2) 0 else kshape.getD 1 0
  if idt = kdt ∧ input_c = filter_i then
    some (idt, convOutputShape data_is_nhwc kernel_is_hwio dilations strides ishape kshape)
  else none

/-- Claim C3: for a Conv with strides [2,2], Valid padding, dilation 1, nchw
data and oihw kernel, shape inference on input fact F32[1,1,7,5] and kernel
fact F32[1,1,3,3] yields exactly the output fact F32[1,1,3,2], and each spatial
dim agrees with `floor((in_i + 0 - effective_k) / stride_i) + 1`. -/
theorem conv_infer_strides_no_padding :
    convInferOutput false false none (some [2, 2])
        DatumType.F32 [1, 1, 7, 5] DatumType.F32 [1, 1, 3, 3]
      = some (DatumType.F32, [1, 1, 3, 2]) ∧
    validOutDim 7 3 1 2 = (7 + 0 - (3 - 1) * 1 - 1) / 2 + 1 ∧
    validOutDim 5 3 1 2 = (5 + 0 - (3 - 1) * 1 - 1) / 2 + 1 := by
  decide

/-- Claim C4: for a default Conv (nchw data, oihw kernel, no strides, no
dilations), shape inference on input fact F32[1,2,1,1] and kernel fact
F32[3,2,1,1] yields exactly F32[1,3,1,1]: the output channel dim equals the
kernel out-channel dim (kshape[0] = 3).  The second conjunct shows the channel
unification at work: a kernel whose in-channel dim does not match the input
channel dim makes inference fail. -/
theorem conv_infer_channels :
    convInferOutput false false none none
        DatumType.F32 [1, 2, 1, 1] DatumType.F32 [3, 2, 1, 1]
      = some (DatumType.F32, [1, 3, 1, 1]) ∧
    convInferOutput false false none none
        DatumType.F32 [1, 5, 1, 1] DatumType.F32 [3, 2, 1, 1]
      = none := by
  decide

/-! ### LocalPatch (src/src/ops/nn/local_patch.rs) -/

/-- The TF padding attribute of `LocalPatch`. -/
inductive Padding
  | Valid
  | Same
deriving DecidableEq, Repr

/-- `LocalPatch`: padding mode and strides (the data format field is always
NHWC and carries no information). -/
structure LocalPatch where
  padding : Padding
  strides : List Nat
deriving DecidableEq, Repr

/-- Rust `usize` subtraction, which panics on underflow; the panic is modelled
as `none`. -/
def checkedSub (a b : Nat) : Option Nat :=
  if b ≤ a then some (a - b) else none

/-- `LocalPatch::adjusted_dim` (src/src/ops/nn/local_patch.rs lines 98-115).
The source computes `(x as f32 / stride as f32).ceil() as usize`; the f32
arithmetic is modelled by exact rational arithmetic (`as usize` on a
negative float saturates at 0, as `Int.toNat` does).  `Valid` uses the Rust
usize expression `in_rows - filter_rows + 1`, modelled with truncated Nat
subtraction.  Indexing `strides[1]` is modelled by `getD` with a default that
no claim exercises. -/
def LocalPatch.adjusted_dim (p : LocalPatch) (in_rows in_cols : Nat)
    (filter : Nat × Nat) : Nat × Nat :=
  let stride := p.strides.getD 1 0
  match p.padding with
  | .Same =>
      ((⌈(in_rows : ℚ) / (stride : ℚ)⌉).toNat, (⌈(in_cols : ℚ) / (stride : ℚ)⌉).toNat)
  | .Valid =>
      ((⌈((in_rows - filter.1 + 1 : Nat) : ℚ) / (stride : ℚ)⌉).toNat,
       (⌈((in_cols - filter.2 + 1 : Nat) : ℚ) / (stride : ℚ)⌉).toNat)

/-- `LocalPatch::padding` (src/src/ops/nn/local_patch.rs lines 117-156): for
Same padding the total vertical padding is
`max(0, filter_rows - (if height % stride == 0 then stride else height % stride))`
on usize (and similarly horizontal with cols/width); `max(0, _)` on usize is
the identity and the inner subtraction is the panicking usize one, modelled
with `checkedSub`.  Each total is split as low = total / 2 and
high = total - total / 2; the function returns
(left, right, top, bottom).  Valid padding is all zeroes. -/
def LocalPatch.paddingAmounts (p : LocalPatch) (height width : Nat)
    (filter : Nat × Nat) : Option (Nat × Nat × Nat × Nat) :=
  let stride := p.strides.getD 1 0
  match p.padding with
  | .Same =>
      match checkedSub filter.1 (if height % stride = 0 then stride else height % stride),
            checkedSub filter.2 (if width % stride = 0 then stride else width % stride) with
      | some v_padding, some h_padding =>
          some (h_padding / 2, h_padding - h_padding / 2,
                v_padding / 2, v_padding - v_padding / 2)
      | _, _ => none
  | .Valid => some (0, 0, 0, 0)

theorem nat_div_bounds (a b : Nat) (hb : 0 < b) :
    a / b * b ≤ a ∧ a < a / b * b + b := by
  refine ⟨Nat.div_mul_le_self a b, ?_⟩
  have h1 := Nat.div_add_mod a b
  have h2 := Nat.mod_lt a hb
  have h3 : b * (a / b) = a / b * b := Nat.mul_comm _ _
  omega

/-- The rational ceiling of a quotient of naturals is the rounded-up natural
division. -/
theorem ceil_natCast_div (a b : Nat) (hb : 0 < b) :
    ⌈(a : ℚ) / (b : ℚ)⌉ = (((a + b - 1) / b : ℕ) : ℤ) := by
  have hbq : (0 : ℚ) < (b : ℚ) := by exact_mod_cast hb
  obtain ⟨h7, h6⟩ := nat_div_bounds (a + b - 1) b hb
  set N := (a + b - 1) / b with hN
  rw [Int.ceil_eq_iff]
  constructor
  · rw [lt_div_iff₀ hbq]
    have hlt : N * b < a + b := by omega
    have hq : (N : ℚ) * (b : ℚ) < (a : ℚ) + (b : ℚ) := by exact_mod_cast hlt
    push_cast
    linarith
  · rw [div_le_iff₀ hbq]
    have hle : a ≤ N * b := by omega
    have hq : (a : ℚ) ≤ (N : ℚ) * (b : ℚ) := by exact_mod_cast hle
    push_cast
    linarith

/-- The total Same padding along one axis computed by `LocalPatch::padding`:
`filter - (if size % stride == 0 then stride else size % stride)`. -/
def samePadTotal (size stride filter : Nat) : Nat :=
  filter - (if size % stride = 0 then stride else size % stride)

theorem samePadTotal_le (size stride filter : Nat) (h1 : 1 ≤ stride)
    (hf : stride ≤ filter) :
    (if size % stride = 0 then stride else size % stride) ≤ filter := by
  by_cases h : size % stride = 0
  · rw [if_pos h]
    exact hf
  · rw [if_neg h]
    have := Nat.mod_lt size (show 0 < stride from h1)
    omega

/-- The rounded-up natural division agrees with
`floor((H + pad_total - fr) / s) + 1` over ℤ, where `pad_total` is the Same
padding total. -/
theorem ceil_div_eq_floor_formula (H s fr : Nat) (h1 : 1 ≤ s) (hf : s ≤ fr) :
    (((H + s - 1) / s : ℕ) : ℤ) =
      ((H : ℤ) + ((samePadTotal H s fr : ℕ) : ℤ) - (fr : ℤ)) / (s : ℤ) + 1 := by
  have hs0 : (s : ℤ) ≠ 0 := by omega
  have hq := Nat.div_add_mod H s
  unfold samePadTotal
  by_cases h : H % s = 0
  · rw [if_pos h]
    have hcast : ((fr - s : ℕ) : ℤ) = (fr : ℤ) - (s : ℤ) := by omega
    rw [hcast]
    have hHq : H = s * (H / s) := by omega
    have hH : (H : ℤ) = (s : ℤ) * ((H / s : ℕ) : ℤ) := by exact_mod_cast hHq
    have hrhs : (H : ℤ) + ((fr : ℤ) - (s : ℤ)) - (fr : ℤ)
        = (s : ℤ) * (((H / s : ℕ) : ℤ) - 1) := by
      rw [hH]
      ring
    rw [hrhs, Int.mul_ediv_cancel_left _ hs0]
    have hlhs : (H + s - 1) / s = H / s := by
      have hsplit : H + s - 1 = s * (H / s) + (s - 1) := by omega
      rw [hsplit, Nat.mul_add_div (by omega)]
      have hz : (s - 1) / s = 0 := Nat.div_eq_of_lt (by omega)
      omega
    rw [hlhs]
    ring
  · rw [if_neg h]
    have htlt : H % s < s := Nat.mod_lt H (by omega)
    have hcast : ((fr - H % s : ℕ) : ℤ) = (fr : ℤ) - ((H % s : ℕ) : ℤ) := by omega
    rw [hcast]
    have hHc : (H : ℤ) = (s : ℤ) * ((H / s : ℕ) : ℤ) + ((H % s : ℕ) : ℤ) := by
      exact_mod_cast hq.symm
    have hrhs : (H : ℤ) + ((fr : ℤ) - ((H % s : ℕ) : ℤ)) - (fr : ℤ)
        = (s : ℤ) * ((H / s : ℕ) : ℤ) := by
      rw [hHc]
      ring
    rw [hrhs, Int.mul_ediv_cancel_left _ hs0]
    have hlhs : (H + s - 1) / s = H / s + 1 := by
      have hmul : s * (H / s + 1) = s * (H / s) + s := by ring
      have hsplit : H + s - 1 = s * (H / s + 1) + (H % s - 1) := by omega
      rw [hsplit, Nat.mul_add_div (by omega)]
      have hz : (H % s - 1) / s = 0 := Nat.div_eq_of_lt (by omega)
      omega
    rw [hlhs]
    push_cast
    ring

/-- Claim C5: for Same padding with uniform stride s ≥ 1 and filter dimensions
fr, fc each at least s, `adjusted_dim` returns
(ceil(in_rows / s), ceil(in_cols / s)) (as rounded-up natural divisions);
`padding` succeeds and splits each per-axis total with the extra cell of an
odd total appended on the high side (left = h/2, right = h - h/2, top = v/2,
bottom = v - v/2, so low ≤ high and low + high = total); and per axis the
result equals floor((in + pad_total - k) / s) + 1 over ℤ, where pad_total is
the sum of that axis' two amounts. -/
theorem localPatch_same_refines_floor_formula (p : LocalPatch) (s fr fc H W : Nat)
    (hpad : p.padding = Padding.Same) (hs : p.strides.getD 1 0 = s)
    (h1 : 1 ≤ s) (hfr : s ≤ fr) (hfc : s ≤ fc) :
    p.adjusted_dim H W (fr, fc) = ((H + s - 1) / s, (W + s - 1) / s) ∧
    p.paddingAmounts H W (fr, fc)
        = some (samePadTotal W s fc / 2,
                samePadTotal W s fc - samePadTotal W s fc / 2,
                samePadTotal H s fr / 2,
                samePadTotal H s fr - samePadTotal H s fr / 2) ∧
    samePadTotal H s fr / 2 + (samePadTotal H s fr - samePadTotal H s fr / 2)
        = samePadTotal H s fr ∧
    samePadTotal W s fc / 2 + (samePadTotal W s fc - samePadTotal W s fc / 2)
        = samePadTotal W s fc ∧
    samePadTotal H s fr / 2 ≤ samePadTotal H s fr - samePadTotal H s fr / 2 ∧
    samePadTotal W s fc / 2 ≤ samePadTotal W s fc - samePadTotal W s fc / 2 ∧
    (((H + s - 1) / s : ℕ) : ℤ)
        = ((H : ℤ) + (samePadTotal H s fr : ℤ) - (fr : ℤ)) / (s : ℤ) + 1 ∧
    (((W + s - 1) / s : ℕ) : ℤ)
        = ((W : ℤ) + (samePadTotal W s fc : ℤ) - (fc : ℤ)) / (s : ℤ) + 1 := by
  have hsp : 0 < s := h1
  refine ⟨?_, ?_, by omega, by omega, by omega, by omega,
    ceil_div_eq_floor_formula H s fr h1 hfr, ceil_div_eq_floor_formula W s fc h1 hfc⟩
  · unfold LocalPatch.adjusted_dim
    rw [hs, hpad]
    dsimp only
    rw [ceil_natCast_div H s hsp, ceil_natCast_div W s hsp,
      Int.toNat_natCast, Int.toNat_natCast]
  · unfold LocalPatch.paddingAmounts
    rw [hs, hpad]
    dsimp only
    have hv : checkedSub fr (if H % s = 0 then s else H % s)
        = some (samePadTotal H s fr) := by
      unfold checkedSub samePadTotal
      exact if_pos (samePadTotal_le H s fr h1 hfr)
    have hw : checkedSub fc (if W % s = 0 then s else W % s)
        = some (samePadTotal W s fc) := by
      unfold checkedSub samePadTotal
      exact if_pos (samePadTotal_le W s fc h1 hfc)
    rw [hv, hw]

/-- Witness for C5 at s = 2, filter 2x2, image 3x5: adjusted dims
(ceil(3/2), ceil(5/2)) = (2, 3), and the padding totals v = 2 - 1 = 1 and
h = 2 - 1 = 1 are each split as (0, 1) with the extra cell on the high side. -/
theorem localPatch_same_refines_floor_formula_witness :
    (LocalPatch.mk Padding.Same [1, 2, 2, 1]).adjusted_dim 3 5 (2, 2) = (2, 3) ∧
    (LocalPatch.mk Padding.Same [1, 2, 2, 1]).paddingAmounts 3 5 (2, 2)
      = some (0, 1, 0, 1) := by
  have h := localPatch_same_refines_floor_formula
    (LocalPatch.mk Padding.Same [1, 2, 2, 1]) 2 2 2 3 5 rfl rfl
    (by decide) (by decide) (by decide)
  exact ⟨h.1, h.2.1⟩

/-- Claim C8 (code bug input): with Same padding, strides [1,2,2,1] and a 1x1
filter on a 2x2 image, the code's `filter_rows - (stride or height % stride)`
is the usize subtraction 1 - 2, which underflows (panics in debug builds)
although the surrounding `max(0, ...)` shows the author intended clamping at
zero. -/
theorem localPatch_padding_underflow :
    (LocalPatch.mk Padding.Same [1, 2, 2, 1]).paddingAmounts 2 2 (1, 1) = none := by
  decide

/-- The strides-validation condition of `LocalPatch::mk_patches`
(src/src/ops/nn/local_patch.rs lines 200-245).  The Rust expression
`strides.len() != 4 || strides[0] != 1 && strides[3] != 1 || strides[1] != strides[2]`
parses as `len != 4 || (s0 != 1 && s3 != 1) || s1 != s2` because `&&` binds
tighter than `||`; `mk_patches` returns its strides error exactly when this
condition holds. -/
def mkPatchesStridesErr (strides : List Nat) : Bool :=
  (strides.length != 4) ||
    ((strides.getD 0 0 != 1) && (strides.getD 3 0 != 1)) ||
    (strides.getD 1 0 != strides.getD 2 0)

/-- The condition claimed by C10: strides not of the form [1, s, s, 1]. -/
def stridesOfForm1ss1 (strides : List Nat) : Prop :=
  strides.length = 4 ∧ strides.getD 0 0 = 1 ∧ strides.getD 3 0 = 1 ∧
    strides.getD 1 0 = strides.getD 2 0

/-- Claim C10 (code bug): strides [2,1,1,1] are not of the form [1,s,s,1], so
by the claim (and by the code's own error message) `mk_patches` must reject
them; but the misparenthesised guard only rejects when BOTH the first and the
last stride differ from 1, so [2,1,1,1] passes the check and no error is
returned. -/
theorem mkPatches_guard_accepts_bad_strides :
    mkPatchesStridesErr [2, 1, 1, 1] = false ∧ ¬ stridesOfForm1ss1 [2, 1, 1, 1] := by
  constructor
  · decide
  · intro h
    exact absurd h.2.1 (by decide)

/-! ### An exact model of the f32 values used by the pooling kernels -/

/-- The f32 values the pooling kernels manipulate: NaN, the infinities, and
finite values modelled exactly as rationals. -/
inductive F32
  | nan
  | neginf
  | posinf
  | num (q : ℚ)
deriving DecidableEq, Repr

/-- IEEE `>`: every comparison involving NaN is false. -/
def F32.gt : F32 → F32 → Bool
  | .nan, _ => false
  | _, .nan => false
  | .posinf, .posinf => false
  | .posinf, _ => true
  | _, .posinf => false
  | .neginf, _ => false
  | .num _, .neginf => true
  | .num a, .num b => b < a

/-- IEEE `is_nan`. -/
def F32.isNan : F32 → Bool
  | .nan => true
  | _ => false

/-- IEEE addition (exact on finite values). -/
def F32.add : F32 → F32 → F32
  | .nan, _ => .nan
  | _, .nan => .nan
  | .posinf, .neginf => .nan
  | .neginf, .posinf => .nan
  | .posinf, _ => .posinf
  | _, .posinf => .posinf
  | .neginf, _ => .neginf
  | _, .neginf => .neginf
  | .num a, .num b => .num (a + b)

/-- IEEE division of a value by a natural count (`count as f32`), as in
`sum / count as f32` in `AvgPool::eval`: NaN propagates, 0/0 is NaN, a
nonzero finite value over 0 is a signed infinity, infinities stay. -/
def F32.divNat : F32 → Nat → F32
  | .nan, _ => .nan
  | .posinf, _ => .posinf
  | .neginf, _ => .neginf
  | .num a, 0 => if a = 0 then .nan else if 0 < a then .posinf else .neginf
  | .num a, (n + 1) => .num (a / ((n + 1 : Nat) : ℚ))

/-- The finite value of a modelled f32 (0 for NaN and infinities). -/
def F32.toQ : F32 → ℚ
  | .num q => q
  | _ => 0

/-! ### Pooling kernels (src/src/ops/nn/local_patch.rs lines 437-516) -/

/-- The window coordinate offsets scanned by the pooling loops, in source
order (y outer, x inner), for a (filter_rows, filter_cols) window. -/
def windowCoords (fr fc : Nat) : List (Nat × Nat) :=
  (List.range fr).flatMap (fun dy => (List.range fc).map (fun dx => (dy, dx)))

/-- Whether the absolute coordinate (y, x) of the padded array falls inside
the unpadded input placed at offset (top, left) with extent (H, W). -/
def inBoundsAt (top left H W y x : Nat) : Prop :=
  top ≤ y ∧ y < top + H ∧ left ≤ x ∧ x < left + W

instance (top left H W y x : Nat) : Decidable (inBoundsAt top left H W y x) := by
  unfold inBoundsAt
  infer_instance

/-- The value of the array built by `LocalPatch::pad` (lines 158-197) at
coordinates (b, y, x, d): the stacking of constant `item` blocks left/right
then top/bottom around `data` places the original entry (y - top, x - left)
at (y, x) when in bounds, and `item` everywhere else.  `H` and `W` are the
unpadded height and width. -/
def padFn (data : Nat → Nat → Nat → Nat → F32) (top left H W : Nat) (item : F32) :
    Nat → Nat → Nat → Nat → F32 :=
  fun b y x d =>
    if inBoundsAt top left H W y x then data b (y - top) (x - left) d else item

/-- The accumulating loop of `MaxPool::eval` (lines 453-463): starting from
-∞, keep `v2` whenever `v2 > v`. -/
def maxFold (g : Nat × Nat → F32) (l : List (Nat × Nat)) : F32 :=
  l.foldl (fun v p => if F32.gt (g p) v then g p else v) F32.neginf

/-- The accumulating loop of `AvgPool::eval` (lines 499-511): skip NaN
entries, count and sum the others. -/
def avgFold (g : Nat × Nat → F32) (l : List (Nat × Nat)) : Nat × F32 :=
  l.foldl (fun cs p => if (g p).isNan then cs else (cs.1 + 1, cs.2.add (g p)))
    (0, F32.num 0)

/-- The per-cell closure of `MaxPool::eval` (src/src/ops/nn/local_patch.rs
lines 437-468): the window scan at strides (h_stride, w_stride) over the
(possibly padded) data. -/
def maxPoolCell (data : Nat → Nat → Nat → Nat → F32)
    (h_stride w_stride fr fc b h w d : Nat) : F32 :=
  maxFold (fun p => data b (h * h_stride + p.1) (w * w_stride + p.2) d)
    (windowCoords fr fc)

/-- The per-cell closure of `AvgPool::eval` (lines 483-516): scan the window,
skip NaN entries, sum and count the others, and divide. -/
def avgPoolCell (data : Nat → Nat → Nat → Nat → F32)
    (h_stride w_stride fr fc b h w d : Nat) : F32 :=
  let cs := avgFold (fun p => data b (h * h_stride + p.1) (w * w_stride + p.2) d)
    (windowCoords fr fc)
  cs.2.divNat cs.1

/-- The window positions of one output cell that fall inside the unpadded
input. -/
def inBoundsWindow (top left H W hs ws fr fc h w : Nat) : List (Nat × Nat) :=
  (windowCoords fr fc).filter
    (fun p => inBoundsAt top left H W (h * hs + p.1) (w * ws + p.2))

/-- The rational values of the non-padded window entries of one output cell,
in scan order. -/
def inBoundsVals (data : Nat → Nat → Nat → Nat → F32)
    (top left H W hs ws fr fc b h w d : Nat) : List ℚ :=
  (inBoundsWindow top left H W hs ws fr fc h w).map
    (fun p => (data b (h * hs + p.1 - top) (w * ws + p.2 - left) d).toQ)

/-- The maximum of a list of rationals (0 for the empty list). -/
def qListMax : List ℚ → ℚ
  | [] => 0
  | q :: qs => qs.foldl max q

/-- The literal reading of the claim's avg-pool sentence: the f32 sum of the
window entries that fall inside the unpadded input, divided by the count of
those non-padded entries. -/
def claimedAvgCell (data : Nat → Nat → Nat → Nat → F32)
    (top left H W hs ws fr fc b h w d : Nat) : F32 :=
  let l := inBoundsWindow top left H W hs ws fr fc h w
  (l.foldl (fun s p =>
      s.add (data b (h * hs + p.1 - top) (w * ws + p.2 - left) d))
    (F32.num 0)).divNat l.length

theorem avg_fold_lemma (g : Nat × Nat → F32) (c : Nat × Nat → Bool)
    (v : Nat × Nat → ℚ)
    (hg : ∀ p, g p = if c p then F32.num (v p) else F32.nan) :
    ∀ (l : List (Nat × Nat)) (c0 : Nat) (s0 : ℚ),
      l.foldl (fun cs p => if (g p).isNan then cs else (cs.1 + 1, cs.2.add (g p)))
          (c0, F32.num s0)
        = (c0 + (l.filter c).length, F32.num (s0 + ((l.filter c).map v).sum)) := by
  intro l
  induction l with
  | nil =>
    intro c0 s0
    simp
  | cons p ps ih =>
    intro c0 s0
    rw [List.foldl_cons]
    by_cases hc : c p = true
    · have hgp : g p = F32.num (v p) := by rw [hg p, if_pos hc]
      rw [hgp]
      have hnan : (F32.num (v p)).isNan = false := rfl
      rw [hnan]
      simp only [Bool.false_eq_true, if_false]
      have hadd : (F32.num s0).add (F32.num (v p)) = F32.num (s0 + v p) := rfl
      simp only [hadd]
      rw [ih (c0 + 1) (s0 + v p)]
      rw [List.filter_cons_of_pos hc, List.map_cons, List.sum_cons]
      refine Prod.ext ?_ ?_
      · simp only [List.length_cons]
        omega
      · simp only []
        congr 1
        ring
    · have hgp : g p = F32.nan := by rw [hg p, if_neg hc]
      rw [hgp]
      have hnan : F32.nan.isNan = true := rfl
      rw [hnan]
      simp only [if_true]
      rw [ih c0 s0]
      rw [List.filter_cons_of_neg (by simpa using hc)]

theorem max_fold_lemma_num (g : Nat × Nat → F32) (c : Nat × Nat → Bool)
    (v : Nat × Nat → ℚ)
    (hg : ∀ p, g p = if c p then F32.num (v p) else F32.neginf) :
    ∀ (l : List (Nat × Nat)) (q0 : ℚ),
      l.foldl (fun a p => if F32.gt (g p) a then g p else a) (F32.num q0)
        = F32.num (((l.filter c).map v).foldl max q0) := by
  intro l
  induction l with
  | nil =>
    intro q0
    simp
  | cons p ps ih =>
    intro q0
    rw [List.foldl_cons]
    by_cases hc : c p = true
    · have hgp : g p = F32.num (v p) := by rw [hg p, if_pos hc]
      rw [hgp]
      have hstep : (if F32.gt (F32.num (v p)) (F32.num q0) then F32.num (v p)
          else F32.num q0) = F32.num (max q0 (v p)) := by
        unfold F32.gt
        rcases le_or_lt (v p) q0 with hle | hlt
        · rw [if_neg (by simpa using not_lt.2 hle), max_eq_left hle]
        · rw [if_pos (by simpa using hlt), max_eq_right hlt.le]
      rw [hstep, ih (max q0 (v p)), List.filter_cons_of_pos hc, List.map_cons,
        List.foldl_cons]
    · have hgp : g p = F32.neginf := by rw [hg p, if_neg hc]
      rw [hgp]
      have hstep : (if F32.gt F32.neginf (F32.num q0) then F32.neginf
          else F32.num q0) = F32.num q0 := rfl
      rw [hstep, ih q0, List.filter_cons_of_neg (by simpa using hc)]

theorem max_fold_lemma (g : Nat × Nat → F32) (c : Nat × Nat → Bool)
    (v : Nat × Nat → ℚ)
    (hg : ∀ p, g p = if c p then F32.num (v p) else F32.neginf) :
    ∀ l : List (Nat × Nat),
      maxFold g l
        = (match (l.filter c).map v with
           | [] => F32.neginf
           | q :: qs => F32.num (qs.foldl max q)) := by
  intro l
  induction l with
  | nil => rfl
  | cons p ps ih =>
    unfold maxFold
    rw [List.foldl_cons]
    by_cases hc : c p = true
    · have hgp : g p = F32.num (v p) := by rw [hg p, if_pos hc]
      rw [hgp]
      have hstep : (if F32.gt (F32.num (v p)) F32.neginf then F32.num (v p)
          else F32.neginf) = F32.num (v p) := rfl
      rw [hstep, max_fold_lemma_num g c v hg ps (v p),
        List.filter_cons_of_pos hc, List.map_cons]
    · have hgp : g p = F32.neginf := by rw [hg p, if_neg hc]
      rw [hgp]
      have hstep : (if F32.gt F32.neginf F32.neginf then F32.neginf
          else F32.neginf) = F32.neginf := rfl
      rw [hstep, List.filter_cons_of_neg (by simpa using hc)]
      exact ih

theorem avgFold_eq (g : Nat × Nat → F32) (c : Nat × Nat → Bool)
    (v : Nat × Nat → ℚ)
    (hg : ∀ p, g p = if c p then F32.num (v p) else F32.nan)
    (l : List (Nat × Nat)) :
    avgFold g l = ((l.filter c).length, F32.num ((l.filter c).map v).sum) := by
  unfold avgFold
  rw [avg_fold_lemma g c v hg l 0 0]
  simp

/-- Rust's `f32::MIN`, the least finite f32, exactly:
-(2 - 2^-23) * 2^127.  Every finite f32 value is at least this. -/
def f32MinConst : ℚ := -(2 ^ 128 - 2 ^ 104)

/-- Rust `f32::max` (`a.max(b)`): the greater of the two; when one argument
is NaN the other is returned. -/
def F32.fmax : F32 → F32 → F32
  | .nan, b => b
  | a, .nan => a
  | .posinf, _ => .posinf
  | _, .posinf => .posinf
  | .neginf, b => b
  | a, .neginf => a
  | .num a, .num b => .num (max a b)

/-- Modelled from the spec: the per-output-cell iterator
`Patch::patch_data_iter` (src/src/ops/nn/patches.rs, absent from src/)
yields, for each window position in scan order, `some` source entry when the
position falls inside the input and `none` when it falls in the padded
region (the spec: "the per-output-cell iterator over source coordinates
including whether each falls in the padded region").  MaxPool builds its
Patch with dilation 1. -/
def patchDataIter (data : Nat → Nat → Nat → Nat → F32)
    (top left H W hs ws fr fc b h w d : Nat) : List (Option F32) :=
  (windowCoords fr fc).map (fun p =>
    if inBoundsAt top left H W (h * hs + p.1) (w * ws + p.2) then
      some (data b (h * hs + p.1 - top) (w * ws + p.2 - left) d)
    else none)

/-- The per-cell closure of the Patch-based `MaxPool::eval`
(src/src/ops/nn/maxpool.rs lines 41-45): drop the padded positions
(`filter_map(|pair| pair)`) and fold `acc.max(v)` from `f32::MIN`. -/
def maxPoolPatchCell (data : Nat → Nat → Nat → Nat → F32)
    (top left H W hs ws fr fc b h w d : Nat) : F32 :=
  ((patchDataIter data top left H W hs ws fr fc b h w d).filterMap id).foldl
    F32.fmax (F32.num f32MinConst)

theorem filterMap_id_map_option {α : Type} (f : Nat × Nat → α)
    (c : Nat × Nat → Prop) [DecidablePred c] :
    ∀ l : List (Nat × Nat),
      (l.map (fun p => if c p then some (f p) else none)).filterMap id
        = (l.filter (fun p => decide (c p))).map f := by
  intro l
  induction l with
  | nil => rfl
  | cons p ps ih =>
    rw [List.map_cons]
    by_cases hp : c p
    · rw [if_pos hp, List.filter_cons_of_pos (by simpa using hp), List.map_cons, ← ih]
      rfl
    · rw [if_neg hp, List.filter_cons_of_neg (by simpa using hp), ← ih]
      rfl

theorem fmax_foldl_num : ∀ (vals : List ℚ) (q0 : ℚ),
    (vals.map F32.num).foldl F32.fmax (F32.num q0) = F32.num (vals.foldl max q0) := by
  intro vals
  induction vals with
  | nil =>
    intro q0
    rfl
  | cons q qs ih =>
    intro q0
    rw [List.map_cons, List.foldl_cons, List.foldl_cons]
    exact ih (max q0 q)

theorem foldl_max_of_le (q0 q : ℚ) (qs : List ℚ) (h : q0 ≤ q) :
    (q :: qs).foldl max q0 = qListMax (q :: qs) := by
  rw [List.foldl_cons, max_eq_right h]
  rfl

/-- Claim C6 (amended): for every 4-D input whose entries are all finite
(so NaN-free, and - as every finite f32 is - at least `f32::MIN`): each
AvgPool output cell equals the sum of the window entries that fall inside
the unpadded input divided by the count of those non-padded entries; each
MaxPool output cell of the local_patch.rs kernel equals the maximum over the
window with padded positions treated as -∞; and the Patch-based MaxPool
kernel (maxpool.rs), which skips padded positions and folds from `f32::MIN`,
returns that same maximum whenever the window meets the input - so in every
kernel a padded position never wins over any real entry. -/
theorem pool_cells_on_finite_inputs
    (data : Nat → Nat → Nat → Nat → F32)
    (hfin : ∀ b y x d, ∃ q, data b y x d = F32.num q)
    (hmin : ∀ b y x d, f32MinConst ≤ (data b y x d).toQ)
    (top left H W hs ws fr fc b h w d : Nat)
    (hne : inBoundsWindow top left H W hs ws fr fc h w ≠ []) :
    avgPoolCell (padFn data top left H W F32.nan) hs ws fr fc b h w d
      = F32.num ((inBoundsVals data top left H W hs ws fr fc b h w d).sum
          / ((inBoundsVals data top left H W hs ws fr fc b h w d).length : ℚ)) ∧
    maxPoolCell (padFn data top left H W F32.neginf) hs ws fr fc b h w d
      = F32.num (qListMax (inBoundsVals data top left H W hs ws fr fc b h w d)) ∧
    maxPoolPatchCell data top left H W hs ws fr fc b h w d
      = F32.num (qListMax (inBoundsVals data top left H W hs ws fr fc b h w d)) := by
  have hmod : ∀ (item : F32) (p : Nat × Nat),
      padFn data top left H W item b (h * hs + p.1) (w * ws + p.2) d
        = if (fun p : Nat × Nat =>
              decide (inBoundsAt top left H W (h * hs + p.1) (w * ws + p.2))) p then
            F32.num ((fun p : Nat × Nat =>
              (data b (h * hs + p.1 - top) (w * ws + p.2 - left) d).toQ) p)
          else item := by
    intro item p
    unfold padFn
    by_cases hp : inBoundsAt top left H W (h * hs + p.1) (w * ws + p.2)
    · rw [if_pos hp, if_pos (by simpa using hp)]
      obtain ⟨q, hq⟩ := hfin b (h * hs + p.1 - top) (w * ws + p.2 - left) d
      simp only [hq, F32.toQ]
    · rw [if_neg hp, if_neg (by simpa using hp)]
  have hvals : inBoundsVals data top left H W hs ws fr fc b h w d
      = (((windowCoords fr fc).filter (fun p : Nat × Nat =>
            decide (inBoundsAt top left H W (h * hs + p.1) (w * ws + p.2)))).map
          (fun p : Nat × Nat =>
            (data b (h * hs + p.1 - top) (w * ws + p.2 - left) d).toQ)) := rfl
  refine ⟨?_, ?_, ?_⟩
  · unfold avgPoolCell
    rw [avgFold_eq
      (fun p => padFn data top left H W F32.nan b (h * hs + p.1) (w * ws + p.2) d)
      (fun p : Nat × Nat =>
        decide (inBoundsAt top left H W (h * hs + p.1) (w * ws + p.2)))
      (fun p : Nat × Nat =>
        (data b (h * hs + p.1 - top) (w * ws + p.2 - left) d).toQ)
      (hmod F32.nan) (windowCoords fr fc)]
    rw [hvals]
    have hlenpos : 0 < ((windowCoords fr fc).filter (fun p : Nat × Nat =>
        decide (inBoundsAt top left H W (h * hs + p.1) (w * ws + p.2)))).length := by
      rcases Nat.eq_zero_or_pos ((windowCoords fr fc).filter (fun p : Nat × Nat =>
          decide (inBoundsAt top left H W (h * hs + p.1) (w * ws + p.2)))).length with
        hz | hpos
      · exact absurd (List.length_eq_zero.1 hz) hne
      · exact hpos
    obtain ⟨k, hk⟩ : ∃ k, ((windowCoords fr fc).filter (fun p : Nat × Nat =>
        decide (inBoundsAt top left H W (h * hs + p.1) (w * ws + p.2)))).length
          = k + 1 := ⟨_, (Nat.succ_pred_eq_of_pos hlenpos).symm⟩
    rw [List.length_map, hk]
    rfl
  · unfold maxPoolCell
    rw [max_fold_lemma
      (fun p => padFn data top left H W F32.neginf b (h * hs + p.1) (w * ws + p.2) d)
      (fun p : Nat × Nat =>
        decide (inBoundsAt top left H W (h * hs + p.1) (w * ws + p.2)))
      (fun p : Nat × Nat =>
        (data b (h * hs + p.1 - top) (w * ws + p.2 - left) d).toQ)
      (hmod F32.neginf) (windowCoords fr fc)]
    rw [hvals]
    cases hvl : (((windowCoords fr fc).filter (fun p : Nat × Nat =>
        decide (inBoundsAt top left H W (h * hs + p.1) (w * ws + p.2)))).map
          (fun p : Nat × Nat =>
            (data b (h * hs + p.1 - top) (w * ws + p.2 - left) d).toQ)) with
    | nil =>
      exact absurd (List.map_eq_nil_iff.1 hvl) hne
    | cons q qs =>
      rfl
  · unfold maxPoolPatchCell patchDataIter
    rw [filterMap_id_map_option
      (fun p : Nat × Nat => data b (h * hs + p.1 - top) (w * ws + p.2 - left) d)
      (fun p : Nat × Nat => inBoundsAt top left H W (h * hs + p.1) (w * ws + p.2))
      (windowCoords fr fc)]
    have hdata : ((windowCoords fr fc).filter (fun p : Nat × Nat =>
        decide (inBoundsAt top left H W (h * hs + p.1) (w * ws + p.2)))).map
          (fun p : Nat × Nat => data b (h * hs + p.1 - top) (w * ws + p.2 - left) d)
        = (inBoundsVals data top left H W hs ws fr fc b h w d).map F32.num := by
      rw [hvals, List.map_map]
      apply List.map_congr_left
      intro p hp
      obtain ⟨q, hq⟩ := hfin b (h * hs + p.1 - top) (w * ws + p.2 - left) d
      simp [Function.comp, hq, F32.toQ]
    rw [hdata, fmax_foldl_num]
    cases hvl : inBoundsVals data top left H W hs ws fr fc b h w d with
    | nil =>
      exact absurd (List.map_eq_nil_iff.1 (hvals.symm.trans hvl)) hne
    | cons q qs =>
      have hqmem : q ∈ inBoundsVals data top left H W hs ws fr fc b h w d := by
        rw [hvl]
        exact List.mem_cons_self q qs
      rw [hvals] at hqmem
      obtain ⟨p, hp, hpq⟩ := List.mem_map.1 hqmem
      have hq0 : f32MinConst ≤ q :=
        hpq ▸ hmin b (h * hs + p.1 - top) (w * ws + p.2 - left) d
      rw [foldl_max_of_le f32MinConst q qs hq0]

/-- Witness for the amended C6 at a concrete padded instance: a 1x2 input row
placed below one row of top padding, scanned by a 2x2 window with stride 1;
the avg cell averages the two real entries 0 and 1 to 1/2, and both max
kernels return 1. -/
theorem pool_cells_on_finite_inputs_witness :
    avgPoolCell (padFn (fun _ y x _ => F32.num ((y : ℚ) + (x : ℚ))) 1 0 1 2 F32.nan)
        1 1 2 2 0 0 0 0 = F32.num (1 / 2) ∧
    maxPoolCell (padFn (fun _ y x _ => F32.num ((y : ℚ) + (x : ℚ))) 1 0 1 2 F32.neginf)
        1 1 2 2 0 0 0 0 = F32.num 1 ∧
    maxPoolPatchCell (fun _ y x _ => F32.num ((y : ℚ) + (x : ℚ)))
        1 0 1 2 1 1 2 2 0 0 0 0 = F32.num 1 := by
  have h := pool_cells_on_finite_inputs (fun _ y x _ => F32.num ((y : ℚ) + (x : ℚ)))
    (fun b y x d => ⟨(y : ℚ) + (x : ℚ), rfl⟩)
    (fun b y x d => by
      simp only [F32.toQ]
      have h0 : (0 : ℚ) ≤ (y : ℚ) + (x : ℚ) := by positivity
      have h1 : f32MinConst ≤ 0 := by norm_num [f32MinConst]
      linarith)
    1 0 1 2 1 1 2 2 0 0 0 0 (by decide)
  have hv : inBoundsVals (fun _ y x _ => F32.num ((y : ℚ) + (x : ℚ)))
      1 0 1 2 1 1 2 2 0 0 0 0 = [0, 1] := by
    norm_num [inBoundsVals, inBoundsWindow, windowCoords, inBoundsAt, F32.toQ,
      List.filter, List.range, List.range.loop]
  have hmax : qListMax [0, 1] = 1 := by
    have h0 : qListMax [0, 1] = max 0 1 := rfl
    rw [h0, max_eq_right (by norm_num : (0 : ℚ) ≤ 1)]
  refine ⟨?_, ?_, ?_⟩
  · rw [h.1, hv]
    norm_num
  · rw [h.2.1, hv, hmax]
  · rw [h.2.2, hv, hmax]

/-- Claim C6 counterexample: on the input row [NaN, 5] scanned by a 1x2 window
with no padding, `AvgPool::eval` skips the NaN input entry (its NaN test
cannot tell a NaN input from the NaN padding sentinel) and returns 5, while
the claimed value - the f32 sum of the window entries inside the unpadded
input divided by the count of the non-padded entries - is NaN; so the claim
fails on f32 inputs containing NaN. -/
theorem avgPool_nan_input_counterexample :
    avgPoolCell
        (padFn (fun _ y x _ => if y = 0 ∧ x = 0 then F32.nan else F32.num 5)
          0 0 1 2 F32.nan) 1 1 1 2 0 0 0 0 = F32.num 5 ∧
    claimedAvgCell (fun _ y x _ => if y = 0 ∧ x = 0 then F32.nan else F32.num 5)
        0 0 1 2 1 1 1 2 0 0 0 0 = F32.nan ∧
    F32.num 5 ≠ F32.nan := by
  refine ⟨?_, by decide, by decide⟩
  norm_num [avgPoolCell, avgFold, windowCoords, padFn, inBoundsAt, F32.isNan,
    F32.add, F32.divNat, List.filter, List.range, List.range.loop]

/-! ### Pack evaluation (src/tfdeploy-tf/src/ops/array/pack.rs lines 20-48) -/

/-- A tensor at the level of detail `Pack::eval` manipulates: datum type and
shape (the element buffer does not influence the claimed behaviour). -/
structure Tensor where
  dt : DatumType
  shape : List Nat
deriving DecidableEq, Repr

/-- The outcome of an operator evaluation: `ok` outputs, a returned error, or
a Rust panic. -/
inductive EvalResult
  | ok (outs : List Tensor)
  | err (msg : String)
  | panicked (msg : String)
deriving DecidableEq, Repr

/-- Modelled from the spec: `Value::cast_to_array::<T>` (not under src/)
succeeds exactly when the element type coerces losslessly into `T`, keeping
the shape. -/
def castToArray (t : Tensor) (target : DatumType) : Option Tensor :=
  if losslessTo t.dt target then some (Tensor.mk target t.shape) else none

/-- The `collect::<TfdResult<Vec<_>>>` over the casts in `Pack::eval_t`: the
first failing cast fails the whole list. -/
def castAll (target : DatumType) : List Tensor → Option (List Tensor)
  | [] => some []
  | t :: ts =>
    match castToArray t target, castAll target ts with
    | some a, some rest => some (a :: rest)
    | _, _ => none

/-- `Pack::eval_t::<T>` (lines 22-34): cast every input to `T` (an error when
a cast fails), insert the new axis (ndarray `insert_axis` panics when `axis`
exceeds the rank) and stack along it (ndarray `stack` errors on an empty
list or on unequal view shapes).  On success the single output has datum
type `T` and the input shape with `n` spliced in at position `axis`. -/
def packEvalT (target : DatumType) (axis : Nat) (inputs : List Tensor) : EvalResult :=
  match castAll target inputs with
  | none => .err "cast failed"
  | some arrs =>
    if arrs.any (fun t => axis > t.shape.length) then
      .panicked "insert_axis out of bounds"
    else
      match arrs with
      | [] => .err "stack needs a nonempty list"
      | a :: rest =>
        if rest.all (fun t => t.shape = a.shape) then
          .ok [Tensor.mk target
            (a.shape.take axis ++ [inputs.length] ++ a.shape.drop axis)]
        else .err "stack shape mismatch"

/-- `Pack::eval` (src/tfdeploy-tf/src/ops/array/pack.rs lines 39-48): compute
the supertype of the input datum types; error when undefined; dispatch
`eval_t` for TDim, I32 and F32; panic with "unsupported type" on every other
supertype. -/
def packEval (axis : Nat) (inputs : List Tensor) : EvalResult :=
  match superTypeFor (inputs.map (fun t => t.dt)) with
  | none => .err "Could not find a supertype"
  | some dt =>
    match dt with
    | .TDim => packEvalT dt axis inputs
    | .I32 => packEvalT dt axis inputs
    | .F32 => packEvalT dt axis inputs
    | _ => .panicked "unsupported type"

/-- Claim C7 counterexample: for a single F64 input the supertype is defined
(it is F64 itself), yet `Pack::eval` does not return an output of that type:
the dispatch covers only TDim, I32 and F32 and panics with "unsupported
type" on every other supertype. -/
theorem packEval_panics_on_f64 :
    superTypeFor [DatumType.F64] = some DatumType.F64 ∧
    packEval 0 [Tensor.mk DatumType.F64 [2]]
      = EvalResult.panicked "unsupported type" := by
  exact ⟨rfl, rfl⟩

theorem castAll_eq_map (target : DatumType) (l : List Tensor)
    (h : ∀ t ∈ l, losslessTo t.dt target) :
    castAll target l = some (l.map (fun t => Tensor.mk target t.shape)) := by
  induction l with
  | nil => rfl
  | cons t ts ih =>
    unfold castAll castToArray
    rw [if_pos (h t (List.mem_cons_self t ts)),
      ih (fun x hx => h x (List.mem_cons_of_mem t hx))]
    rfl

/-- Claim C7 (amended): if the supertype of the input datum types is
undefined, `Pack::eval` returns an error; if it is defined, equal to one of
TDim, I32 or F32 (the only dispatched types), and the inputs are nonempty
with a common shape and axis ≤ rank, eval returns exactly one output tensor
whose datum type is that supertype; a defined supertype outside
{TDim, I32, F32} makes eval panic instead of returning. -/
theorem packEval_supertype_spec (axis : Nat) (inputs : List Tensor) :
    (superTypeFor (inputs.map (fun t => t.dt)) = none →
      packEval axis inputs = EvalResult.err "Could not find a supertype") ∧
    (∀ dt, superTypeFor (inputs.map (fun t => t.dt)) = some dt →
      (dt = DatumType.TDim ∨ dt = DatumType.I32 ∨ dt = DatumType.F32) →
      ∀ sh, (∀ t ∈ inputs, t.shape = sh) → inputs ≠ [] → axis ≤ sh.length →
      packEval axis inputs
        = EvalResult.ok [Tensor.mk dt
            (sh.take axis ++ [inputs.length] ++ sh.drop axis)]) ∧
    (∀ dt, superTypeFor (inputs.map (fun t => t.dt)) = some dt →
      ¬(dt = DatumType.TDim ∨ dt = DatumType.I32 ∨ dt = DatumType.F32) →
      packEval axis inputs = EvalResult.panicked "unsupported type") := by
  refine ⟨?_, ?_, ?_⟩
  · intro h
    unfold packEval
    rw [h]
  · intro dt hsup hdt sh hsh hne hax
    cases inputs with
    | nil => exact absurd rfl hne
    | cons i is =>
      have hcast : ∀ t ∈ i :: is, losslessTo t.dt dt := by
        intro t ht
        exact superTypeFor_lossless hsup t.dt (List.mem_map_of_mem _ ht)
      have hpack : packEvalT dt axis (i :: is)
          = EvalResult.ok [Tensor.mk dt
              (sh.take axis ++ [(i :: is).length] ++ sh.drop axis)] := by
        unfold packEvalT
        rw [castAll_eq_map dt (i :: is) hcast]
        simp only [List.map_cons]
        try dsimp only
        have hany : ((Tensor.mk dt i.shape) ::
            is.map (fun t => Tensor.mk dt t.shape)).any
              (fun t => decide (axis > t.shape.length)) = false := by
          rw [List.any_eq_false]
          intro x hx
          rcases List.mem_cons.1 hx with rfl | hx
          · simp only [decide_eq_true_eq, not_lt]
            exact hsh i (List.mem_cons_self i is) ▸ hax
          · obtain ⟨t, ht, rfl⟩ := List.mem_map.1 hx
            simp only [decide_eq_true_eq, not_lt]
            exact hsh t (List.mem_cons_of_mem i ht) ▸ hax
        rw [if_neg (by rw [hany]; exact Bool.false_ne_true)]
        try dsimp only
        have hall : (is.map (fun t => Tensor.mk dt t.shape)).all
            (fun t => decide (t.shape = i.shape)) = true := by
          rw [List.all_eq_true]
          intro x hx
          obtain ⟨t, ht, rfl⟩ := List.mem_map.1 hx
          simp only [decide_eq_true_eq]
          rw [hsh t (List.mem_cons_of_mem i ht),
            hsh i (List.mem_cons_self i is)]
        rw [if_pos hall, hsh i (List.mem_cons_self i is)]
      unfold packEval
      rw [hsup]
      rcases hdt with rfl | rfl | rfl
      · exact hpack
      · exact hpack
      · exact hpack
  · intro dt hsup hdt
    unfold packEval
    rw [hsup]
    cases dt with
    | TDim => exact absurd (Or.inl rfl) hdt
    | I32 => exact absurd (Or.inr (Or.inl rfl)) hdt
    | F32 => exact absurd (Or.inr (Or.inr rfl)) hdt
    | F64 => rfl
    | I64 => rfl
    | U8 => rfl
    | I8 => rfl
    | Bool => rfl
    | Str => rfl

/-- Witness for the amended C7: packing an I32 and a TDim scalar pair of
shape [2] at axis 0 yields one TDim output of shape [2, 2] (their supertype
is TDim); packing a Bool with an F32 has no supertype and errors. -/
theorem packEval_supertype_spec_witness :
    packEval 0 [Tensor.mk DatumType.I32 [2], Tensor.mk DatumType.TDim [2]]
      = EvalResult.ok [Tensor.mk DatumType.TDim [2, 2]] ∧
    packEval 0 [Tensor.mk DatumType.Bool [], Tensor.mk DatumType.F32 []]
      = EvalResult.err "Could not find a supertype" := by
  constructor
  · exact (packEval_supertype_spec 0
      [Tensor.mk DatumType.I32 [2], Tensor.mk DatumType.TDim [2]]).2.1
      DatumType.TDim (by decide) (Or.inl rfl) [2] (by decide) (by decide) (by decide)
  · exact (packEval_supertype_spec 0
      [Tensor.mk DatumType.Bool [], Tensor.mk DatumType.F32 []]).1 (by decide)

/-! ### ONNX operator registry (src/tfdeploy-onnx/src/ops/mod.rs) -/

/-- A parsed ONNX node descriptor: the operator-kind string and an opaque
rendering of the full node (the source formats the whole protobuf struct
with the Debug formatter). -/
structure NodeProto where
  op_type : String
  rendering : String
deriving DecidableEq, Repr

/-- An operator instance at the level of detail C9 needs: either the
`UnimplementedOp(kind, rendering)` placeholder, or an op produced by a
registered builder, carried as its evaluation function. -/
inductive OnnxOp
  | unimplemented (kind : String) (node : String)
  | built (run : List Tensor → Except String (List Tensor))

/-- Modelled from the spec: `UnimplementedOp::eval` (not under src/) fails
with a localized error naming the operator kind. -/
def OnnxOp.evalOp : OnnxOp → List Tensor → Except String (List Tensor)
  | .unimplemented kind _, _ => .error ("unimplemented operation: " ++ kind)
  | .built run, inputs => run inputs

/-- `OpBuilder::build` (src/tfdeploy-onnx/src/ops/mod.rs lines 26-34): look
the node's operator kind up in the registry; on a hit run that builder, on a
miss return `Ok` with an `UnimplementedOp` carrying the kind string and the
node's rendering. -/
def opBuilderBuild (registry : String → Option (NodeProto → Except String OnnxOp))
    (pb : NodeProto) : Except String OnnxOp :=
  match registry pb.op_type with
  | some builder => builder pb
  | none => Except.ok (OnnxOp.unimplemented pb.op_type pb.rendering)

/-- Claim C9: for every parsed node descriptor whose operator-kind string is
absent from the registry, `OpBuilder::build` returns Ok with an
UnimplementedOp carrying that kind string - not an error - so the node still
enters the graph; the failure only surfaces when the placeholder's eval is
called, which errors on every input list. -/
theorem opBuilderBuild_unknown_kind
    (registry : String → Option (NodeProto → Except String OnnxOp))
    (pb : NodeProto) (h : registry pb.op_type = none) :
    opBuilderBuild registry pb
      = Except.ok (OnnxOp.unimplemented pb.op_type pb.rendering) ∧
    ∀ inputs, (OnnxOp.unimplemented pb.op_type pb.rendering).evalOp inputs
      = Except.error ("unimplemented operation: " ++ pb.op_type) := by
  constructor
  · unfold opBuilderBuild
    rw [h]
  · intro inputs
    rfl

/-- Witness for C9 on an empty registry and a node of kind "FancyOp". -/
theorem opBuilderBuild_unknown_kind_witness :
    opBuilderBuild (fun _ => none) (NodeProto.mk "FancyOp" "node")
      = Except.ok (OnnxOp.unimplemented "FancyOp" "node") ∧
    (OnnxOp.unimplemented "FancyOp" "node").evalOp []
      = Except.error ("unimplemented operation: " ++ "FancyOp") :=
  ⟨(opBuilderBuild_unknown_kind (fun _ => none) (NodeProto.mk "FancyOp" "node") rfl).1,
   (opBuilderBuild_unknown_kind (fun _ => none) (NodeProto.mk "FancyOp" "node") rfl).2 []⟩

end TfDeploy
